import Mathlib

/-!
Verification of the text-locator engine of pdf-agent-mcp (src/index.ts).

The TypeScript source is shallowly embedded: JavaScript strings are modelled
as lists of characters (`JSStr`), JavaScript numbers as `Int`/`Nat` (the
values involved are small integers), thrown exceptions as `Except` values
whose error component records the error class, and the asynchronous per-page
scan results consumed by the search orchestration loop as explicit
`Except`-valued inputs.  Every definition mirrors the function of the same
name in src/index.ts.
-/

namespace PdfAgent

/-- Model of a JavaScript string: its sequence of characters. -/
abbrev JSStr := List Char

/-- Converts a Lean string literal to the embedded JS-string representation. -/
def jstr (s : String) : JSStr := s.data

/-- Model of `String.prototype.trim`: removes leading and trailing whitespace. -/
def jsTrim (s : JSStr) : JSStr :=
  ((s.dropWhile Char.isWhitespace).reverse.dropWhile Char.isWhitespace).reverse

/-- Model of `String.prototype.split` with a single-character separator:
splits at every occurrence of the separator, keeping empty pieces. -/
def splitOnChar (sep : Char) : JSStr → List JSStr
  | [] => [[]]
  | c :: rest =>
    match splitOnChar sep rest with
    | [] => if c = sep then [[], []] else [[c]]
    | h :: t => if c = sep then [] :: h :: t else (c :: h) :: t

/-- Longest prefix of decimal digits of a character list. -/
def digitsPrefix : List Char → List Char
  | [] => []
  | c :: cs => if c.isDigit then c :: digitsPrefix cs else []

/-- Numeric value of a list of decimal digits, most significant first. -/
def digitsVal (l : List Char) : Nat :=
  l.foldl (fun a c => a * 10 + (c.toNat - 48)) 0

/-- Model of JavaScript `parseInt(s, 10)` on already-trimmed input: an
optional sign followed by a longest digit prefix; `none` models `NaN`. -/
def parseIntJS (s : JSStr) : Option Int :=
  match s with
  | '+' :: rest =>
    if (digitsPrefix rest).isEmpty then none else some (digitsVal (digitsPrefix rest))
  | '-' :: rest =>
    if (digitsPrefix rest).isEmpty then none
    else some (-(digitsVal (digitsPrefix rest) : Int))
  | _ =>
    if (digitsPrefix s).isEmpty then none else some (digitsVal (digitsPrefix s))

/-- Error classes of the range resolver; each corresponds to one `throw`
site in `parsePageRange`/`parseSinglePageRange` (the human-readable message
strings are abstracted to their class). -/
inductive RangeError
  | emptyRange
  | emptySegment
  | invalidPageNumber
  | invalidStart
  | invalidEnd
  | rangeInverted
  | rangeOutOfBounds
deriving DecidableEq, Repr

/-- Ascending list of integers from `a` to `b` inclusive (empty if `b < a`);
models the `for (let i = start; i <= end; i++) pages.push(i)` loop. -/
def intRange (a b : Int) : List Int :=
  (List.range (b + 1 - a).toNat).map (fun (i : Nat) => a + (i : Int))

/-- Final phase of `parseSinglePageRange` (src/index.ts lines 115-130): the
inversion check, the start-side bounds check, the silent clamp of `end` to
`totalPages`, and the emission loop. -/
def resolveInterval (start stop totalPages : Int) : Except RangeError (List Int) :=
  if start > stop then .error .rangeInverted
  else if start > totalPages then .error .rangeOutOfBounds
  else .ok (intRange start (min stop totalPages))

/-- Bound-token handling in `parseSinglePageRange`: an absent or blank token
yields the default, a present token must parse to an integer `>= 1`. -/
def parseBound (tok : JSStr) (dflt : Int) (err : RangeError) : Except RangeError Int :=
  if tok.isEmpty then .ok dflt
  else
    match parseIntJS tok with
    | none => .error err
    | some v => if v < 1 then .error err else .ok v

/-- Model of `parseSinglePageRange` (src/index.ts lines 83-131). -/
def parseSinglePageRange (segment : JSStr) (totalPages : Int) : Except RangeError (List Int) :=
  if (jsTrim segment).isEmpty then .error .emptySegment
  else if (jsTrim segment).contains ':' then
    match parseBound (jsTrim ((splitOnChar ':' (jsTrim segment)).headD [])) 1 .invalidStart with
    | .error e => .error e
    | .ok start =>
      match parseBound (jsTrim ((splitOnChar ':' (jsTrim segment)).getD 1 []))
          totalPages .invalidEnd with
      | .error e => .error e
      | .ok stop => resolveInterval start stop totalPages
  else
    match parseIntJS (jsTrim segment) with
    | none => .error .invalidPageNumber
    | some n => if n < 1 ∨ totalPages < n then .error .invalidPageNumber else .ok [n]

/-- Model of `Set.prototype.add` on an insertion-ordered set represented as a
duplicate-free list. -/
def setAdd (acc : List Int) (x : Int) : List Int :=
  if x ∈ acc then acc else acc ++ [x]

/-- Per-segment accumulation loop of `parsePageRange`: resolves each segment
and unions its pages into the insertion-ordered set, failing fast on the
first bad segment. -/
def collectSegments (totalPages : Int) : List JSStr → List Int → Except RangeError (List Int)
  | [], acc => .ok acc
  | seg :: rest, acc =>
    match parseSinglePageRange seg totalPages with
    | .error e => .error e
    | .ok pages => collectSegments totalPages rest (pages.foldl setAdd acc)

/-- Model of `parsePageRange` (src/index.ts lines 55-81): trim, split on
commas, drop blank segments, resolve each segment, union into a set, and
return the ascending sequence.  The final numeric `sort` is modelled by
`insertionSort`, which produces the same (unique) ascending arrangement of
the duplicate-free accumulator. -/
def parsePageRange (rangeStr : JSStr) (totalPages : Int) : Except RangeError (List Int) :=
  if (jsTrim rangeStr).isEmpty then .error .emptyRange
  else if (((splitOnChar ',' (jsTrim rangeStr)).map jsTrim).filter
      (fun s => 0 < s.length)).isEmpty then .error .emptyRange
  else
    (collectSegments totalPages
        (((splitOnChar ',' (jsTrim rangeStr)).map jsTrim).filter (fun s => 0 < s.length))
        []).map
      (fun all => all.insertionSort (· ≤ ·))

deriving instance DecidableEq for Except

theorem mem_intRange {a b p : Int} : p ∈ intRange a b ↔ a ≤ p ∧ p ≤ b := by
  unfold intRange
  rw [List.mem_map]
  constructor
  · rintro ⟨i, hi, rfl⟩
    rw [List.mem_range] at hi
    omega
  · rintro ⟨h1, h2⟩
    refine ⟨(p - a).toNat, ?_, ?_⟩
    · rw [List.mem_range]; omega
    · omega

theorem pairwise_lt_intRange (a b : Int) : (intRange a b).Pairwise (· < ·) := by
  rw [intRange, List.pairwise_map]
  refine (List.pairwise_lt_range _).imp ?_
  intro i j hij
  show a + (i : Int) < a + (j : Int)
  omega

theorem nodup_intRange (a b : Int) : (intRange a b).Nodup :=
  (pairwise_lt_intRange a b).imp (fun h => ne_of_lt h)

theorem sorted_le_intRange (a b : Int) : (intRange a b).Sorted (· ≤ ·) :=
  (pairwise_lt_intRange a b).imp (fun h => le_of_lt h)

theorem parseBound_start_ge_one {tok : JSStr} {err : RangeError} {v : Int}
    (h : parseBound tok 1 err = .ok v) : 1 ≤ v := by
  unfold parseBound at h
  split at h
  · cases h; omega
  · split at h
    · cases h
    · split at h
      · cases h
      · cases h; omega

theorem resolveInterval_mem {start stop total : Int} {l : List Int}
    (hs : 1 ≤ start) (h : resolveInterval start stop total = .ok l) :
    ∀ p ∈ l, 1 ≤ p ∧ p ≤ total := by
  unfold resolveInterval at h
  split at h
  · cases h
  · split at h
    · cases h
    · cases h
      intro p hp
      rcases mem_intRange.mp hp with ⟨h1, h2⟩
      constructor
      · omega
      · have := min_le_right stop total
        omega

theorem parseSinglePageRange_mem {seg : JSStr} {total : Int} {l : List Int}
    (h : parseSinglePageRange seg total = .ok l) : ∀ p ∈ l, 1 ≤ p ∧ p ≤ total := by
  unfold parseSinglePageRange at h
  split at h
  · cases h
  · split at h
    · cases hs : parseBound (jsTrim ((splitOnChar ':' (jsTrim seg)).headD [])) 1 .invalidStart with
      | error e => rw [hs] at h; cases h
      | ok start =>
        rw [hs] at h
        cases he : parseBound (jsTrim ((splitOnChar ':' (jsTrim seg)).getD 1 [])) total
            .invalidEnd with
        | error e => rw [he] at h; cases h
        | ok stop =>
          rw [he] at h
          exact resolveInterval_mem (parseBound_start_ge_one hs) h
    · cases hp : parseIntJS (jsTrim seg) with
      | none => rw [hp] at h; cases h
      | some n =>
        simp only [hp] at h
        by_cases hcond : n < 1 ∨ total < n
        · rw [if_pos hcond] at h; cases h
        · rw [if_neg hcond] at h
          cases h
          intro p hpmem
          simp only [List.mem_singleton] at hpmem
          subst hpmem
          omega

theorem mem_setAdd {acc : List Int} {x y : Int} : y ∈ setAdd acc x ↔ y ∈ acc ∨ y = x := by
  unfold setAdd
  split
  · rename_i hmem
    constructor
    · intro h; exact Or.inl h
    · rintro (h | rfl)
      · exact h
      · exact hmem
  · simp

theorem nodup_setAdd {acc : List Int} {x : Int} (h : acc.Nodup) : (setAdd acc x).Nodup := by
  unfold setAdd
  split
  · exact h
  · rename_i hmem
    simp [List.nodup_append, h, hmem]

theorem nodup_foldl_setAdd (pages : List Int) :
    ∀ acc : List Int, acc.Nodup → (pages.foldl setAdd acc).Nodup := by
  induction pages with
  | nil => intro acc h; exact h
  | cons x rest ih =>
    intro acc h
    exact ih (setAdd acc x) (nodup_setAdd h)

theorem mem_foldl_setAdd (pages : List Int) :
    ∀ (acc : List Int) (y : Int), y ∈ pages.foldl setAdd acc ↔ y ∈ acc ∨ y ∈ pages := by
  induction pages with
  | nil => intro acc y; simp
  | cons x rest ih =>
    intro acc y
    rw [List.foldl_cons, ih, mem_setAdd]
    simp only [List.mem_cons]
    tauto

theorem foldl_setAdd_fresh (l : List Int) :
    ∀ acc : List Int, (acc ++ l).Nodup → l.foldl setAdd acc = acc ++ l := by
  induction l with
  | nil => intro acc _; simp
  | cons x rest ih =>
    intro acc h
    have hx : x ∉ acc := by
      intro hmem
      exact (List.disjoint_of_nodup_append h) hmem (List.mem_cons_self x rest)
    have hstep : setAdd acc x = acc ++ [x] := by
      unfold setAdd
      rw [if_neg hx]
    rw [List.foldl_cons, hstep, ih (acc ++ [x]) (by simpa using h), List.append_assoc]
    simp

theorem collectSegments_invariant (total : Int) (segs : List JSStr) :
    ∀ (acc all : List Int), collectSegments total segs acc = .ok all →
      acc.Nodup → (∀ y ∈ acc, 1 ≤ y ∧ y ≤ total) →
      all.Nodup ∧ ∀ y ∈ all, 1 ≤ y ∧ y ≤ total := by
  induction segs with
  | nil =>
    intro acc all h hnd hmem
    cases h
    exact ⟨hnd, hmem⟩
  | cons seg rest ih =>
    intro acc all h hnd hmem
    unfold collectSegments at h
    cases hp : parseSinglePageRange seg total with
    | error e => rw [hp] at h; cases h
    | ok pages =>
      rw [hp] at h
      refine ih (pages.foldl setAdd acc) all h (nodup_foldl_setAdd pages acc hnd) ?_
      intro y hy
      rcases (mem_foldl_setAdd pages acc y).mp hy with hacc | hpg
      · exact hmem y hacc
      · exact parseSinglePageRange_mem hp y hpg

theorem parsePageRange_ok_shape {r : JSStr} {total : Int} {l : List Int}
    (h : parsePageRange r total = .ok l) :
    l.Pairwise (· < ·) ∧ ∀ p ∈ l, 1 ≤ p ∧ p ≤ total := by
  unfold parsePageRange at h
  split at h
  · cases h
  · split at h
    · cases h
    · cases hc : collectSegments total
          (((splitOnChar ',' (jsTrim r)).map jsTrim).filter (fun s => 0 < s.length)) [] with
      | error e => rw [hc] at h; cases h
      | ok all =>
        rw [hc] at h
        cases h
        have hinv := collectSegments_invariant total _ [] all hc List.nodup_nil (by simp)
        have hperm : List.Perm (all.insertionSort (· ≤ ·)) all := List.perm_insertionSort _ all
        have hnd : (all.insertionSort (· ≤ ·)).Nodup := hperm.nodup_iff.mpr hinv.1
        have hsorted : (all.insertionSort (· ≤ ·)).Sorted (· ≤ ·) :=
          List.sorted_insertionSort _ all
        constructor
        · exact (hsorted.and hnd).imp (fun hab => lt_of_le_of_ne hab.1 hab.2)
        · intro p hp
          exact hinv.2 p (hperm.mem_iff.mp hp)

theorem foldl_setAdd_nil_intRange (a b : Int) :
    (intRange a b).foldl setAdd [] = intRange a b := by
  have := foldl_setAdd_fresh (intRange a b) []
  simpa [nodup_intRange] using this

/-- C8 helper: on the concrete expression `"1:"` the segment resolver reduces
to the interval resolver with both defaults filled in. -/
theorem parseSinglePageRange_one_colon (total : Int) :
    parseSinglePageRange (jstr "1:") total = resolveInterval 1 total total := rfl

/-- C8: resolving the unbounded range expression `"1:"` against any
`totalPages >= 1` succeeds and returns exactly the ascending sequence
`[1, 2, ..., totalPages]` (missing start defaults to 1, missing end defaults
to `totalPages`). -/
theorem C8_unbounded_range (total : Int) (htotal : 1 ≤ total) :
    parsePageRange (jstr "1:") total = .ok (intRange 1 total) ∧
    (∀ p : Int, p ∈ intRange 1 total ↔ 1 ≤ p ∧ p ≤ total) ∧
    (intRange 1 total).Pairwise (· < ·) := by
  refine ⟨?_, fun p => mem_intRange, pairwise_lt_intRange 1 total⟩
  have hseg : parseSinglePageRange (jstr "1:") total = Except.ok (intRange 1 total) := by
    rw [parseSinglePageRange_one_colon]
    unfold resolveInterval
    rw [if_neg (by omega), if_neg (by omega), min_self]
  have hcol : collectSegments total [jstr "1:"] [] = Except.ok (intRange 1 total) := by
    simp only [collectSegments, hseg]
    exact congrArg Except.ok (foldl_setAdd_nil_intRange 1 total)
  have hred : parsePageRange (jstr "1:") total =
      (collectSegments total [jstr "1:"] []).map (fun all => all.insertionSort (· ≤ ·)) := rfl
  rw [hred, hcol]
  show Except.ok ((intRange 1 total).insertionSort (· ≤ ·)) = _
  rw [(sorted_le_intRange 1 total).insertionSort_eq]

theorem C8_unbounded_range_witness :
    parsePageRange (jstr "1:") 4 = .ok (intRange 1 4) ∧ intRange 1 4 = [1, 2, 3, 4] :=
  ⟨(C8_unbounded_range 4 (by decide)).1, by decide⟩

/-- C1: every successfully resolved page range is strictly ascending (hence
duplicate-free, with pages from overlapping segments appearing once) and
every element lies in `[1, totalPages]`; in particular
`resolvePageRange("1:3,2:4", 10)` returns `[1,2,3,4]`. -/
theorem C1_resolved_range_invariants (r : JSStr) (total : Int) (l : List Int)
    (htotal : 1 ≤ total) (h : parsePageRange r total = .ok l) :
    l.Pairwise (· < ·) ∧ (∀ p ∈ l, 1 ≤ p ∧ p ≤ total) ∧
    parsePageRange (jstr "1:3,2:4") 10 = .ok [1, 2, 3, 4] :=
  ⟨(parsePageRange_ok_shape h).1, (parsePageRange_ok_shape h).2, by decide⟩

theorem C1_resolved_range_invariants_witness :
    ([1, 2, 3, 4] : List Int).Pairwise (· < ·) ∧
    (∀ p ∈ ([1, 2, 3, 4] : List Int), 1 ≤ p ∧ p ≤ (10 : Int)) ∧
    parsePageRange (jstr "1:3,2:4") 10 = .ok [1, 2, 3, 4] :=
  C1_resolved_range_invariants (jstr "1:3,2:4") 10 [1, 2, 3, 4] (by decide) (by decide)

/-- C3: for an interval segment with parsed positive bounds, resolution fails
with the range-inverted error when `start > end`, fails with the
out-of-bounds error when `start <= end` but `start > totalPages`, and when
`end > totalPages` the end is silently clamped down to `totalPages`;
concretely `"5:2"` fails range-inverted while `"1:100"` succeeds clamped to
`[1..10]`. -/
theorem C3_interval_checks (start stop total : Int) (hs : 1 ≤ start) (he : 1 ≤ stop) :
    (stop < start → resolveInterval start stop total = .error .rangeInverted) ∧
    (start ≤ stop → total < start →
      resolveInterval start stop total = .error .rangeOutOfBounds) ∧
    (start ≤ stop → start ≤ total → total < stop →
      resolveInterval start stop total = .ok (intRange start total)) ∧
    (start ≤ stop → start ≤ total →
      resolveInterval start stop total = .ok (intRange start (min stop total))) ∧
    parsePageRange (jstr "5:2") 10 = .error .rangeInverted ∧
    parsePageRange (jstr "1:100") 10 = .ok [1, 2, 3, 4, 5, 6, 7, 8, 9, 10] := by
  refine ⟨?_, ?_, ?_, ?_, by decide, by decide⟩
  · intro h
    unfold resolveInterval
    rw [if_pos (by omega)]
  · intro h1 h2
    unfold resolveInterval
    rw [if_neg (by omega), if_pos (by omega)]
  · intro h1 h2 h3
    unfold resolveInterval
    rw [if_neg (by omega), if_neg (by omega), min_eq_right (by omega)]
  · intro h1 h2
    unfold resolveInterval
    rw [if_neg (by omega), if_neg (by omega)]

theorem C3_interval_checks_witness :
    resolveInterval 5 2 10 = .error .rangeInverted ∧
    resolveInterval 1 100 10 = .ok (intRange 1 10) :=
  ⟨(C3_interval_checks 5 2 10 (by decide) (by decide)).1 (by decide),
   (C3_interval_checks 1 100 10 (by decide) (by decide)).2.2.1 (by decide) (by decide) (by decide)⟩

/-- C9: an expression that is empty after trimming, or whose comma-split
segments are all blank after trimming, fails with the empty-range error; a
segment without `:` is parsed as a single integer and fails with the
invalid-page-number error unless it parses to `n` with `1 <= n <= totalPages`. -/
theorem C9_degenerate_input (s : JSStr) (total : Int)
    (hemp : ((splitOnChar ',' (jsTrim s)).map jsTrim).filter (fun t => 0 < t.length) = []) :
    parsePageRange s total = .error .emptyRange ∧
    (∀ (seg : JSStr) (n : Int), (jsTrim seg).isEmpty = false →
      (jsTrim seg).contains ':' = false → parseIntJS (jsTrim seg) = some n →
      (1 ≤ n ∧ n ≤ total → parseSinglePageRange seg total = .ok [n]) ∧
      (¬(1 ≤ n ∧ n ≤ total) →
        parseSinglePageRange seg total = .error .invalidPageNumber)) ∧
    (∀ seg : JSStr, (jsTrim seg).isEmpty = false → (jsTrim seg).contains ':' = false →
      parseIntJS (jsTrim seg) = none →
      parseSinglePageRange seg total = .error .invalidPageNumber) ∧
    parsePageRange (jstr "100") 10 = .error .invalidPageNumber ∧
    parsePageRange (jstr " , ,") 10 = .error .emptyRange := by
  refine ⟨?_, ?_, ?_, by decide, by decide⟩
  · unfold parsePageRange
    by_cases h0 : (jsTrim s).isEmpty
    · rw [if_pos h0]
    · rw [if_neg h0, hemp]
      rfl
  · intro seg n h1 h2 h3
    unfold parseSinglePageRange
    rw [if_neg (by rw [h1]; decide), if_neg (by rw [h2]; decide)]
    simp only [h3]
    constructor
    · intro hr
      rw [if_neg (by omega)]
    · intro hr
      rw [if_pos (by omega)]
  · intro seg h1 h2 h3
    unfold parseSinglePageRange
    rw [if_neg (by rw [h1]; decide), if_neg (by rw [h2]; decide)]
    simp only [h3]

theorem C9_degenerate_input_witness :
    parsePageRange (jstr ",") 10 = .error .emptyRange ∧
    parseSinglePageRange (jstr "0") 10 = .error .invalidPageNumber :=
  ⟨(C9_degenerate_input (jstr ",") 10 (by decide)).1,
   ((C9_degenerate_input (jstr ",") 10 (by decide)).2.1 (jstr "0") 0 (by decide) (by decide)
      (by decide)).2 (by decide)⟩

/-- Regex metacharacters escaped by `parseSearchPattern`'s literal branch:
the character class `[.*+?^$\x7b\x7d()|[\]\\]` of src/index.ts line 141. -/
def isMeta (c : Char) : Bool :=
  c = '.' || c = '*' || c = '+' || c = '?' || c = '^' || c = '$' ||
  c = Char.ofNat 123 || c = Char.ofNat 125 ||
  c = '(' || c = ')' || c = '|' || c = '[' || c = ']' || c = '\\'

/-- Model of `pattern.replace(/[.*+?^$\x7b\x7d()|[\]\\]/g, "\\$&")`: prefix
every metacharacter with a backslash. -/
def escapeJS (s : JSStr) : JSStr :=
  s.flatMap (fun c => if isMeta c then ['\\', c] else [c])

/-- Flag characters accepted by the wrapper syntax `/body/flags`. -/
def isFlagChar (c : Char) : Bool :=
  c = 'g' || c = 'i' || c = 'm' || c = 'u' || c = 'y'

/-- One step of `splitAtLastSlash`: extends the split found in the tail, or
starts one at the current character when it is the last `'/'`. -/
def slashStep (c : Char) (cs : List Char) :
    Option (List Char × List Char) → Option (List Char × List Char)
  | some (b, f) => some (c :: b, f)
  | none => if c = '/' then some ([], cs) else none

/-- Splits a character list at its last `'/'`: returns the part before and
the part after, or `none` when no `'/'` occurs. -/
def splitAtLastSlash : List Char → Option (List Char × List Char)
  | [] => none
  | c :: cs => slashStep c cs (splitAtLastSlash cs)

/-- Validation step of the wrapper sniff: the body must be non-empty and the
flags drawn from `gimuy`. -/
def wrapperCheck : Option (JSStr × JSStr) → Option (JSStr × JSStr)
  | some (body, flags) =>
    if body.isEmpty then none
    else if flags.all isFlagChar then some (body, flags)
    else none
  | none => none

/-- Model of `pattern.match(/^\/(.+)\/([gimuy]*)$/)` (src/index.ts line 135):
the wrapper matches when the string starts with `'/'`, has a later `'/'`
with a non-empty body between them (the greedy `(.+)` puts the split at the
last slash), and everything after that slash is drawn from `gimuy`. -/
def wrapperMatch (p : JSStr) : Option (JSStr × JSStr) :=
  match p with
  | [] => none
  | c :: rest => if c = '/' then wrapperCheck (splitAtLastSlash rest) else none

/-- Result of `parseSearchPattern`: the compiled regex is represented by its
source and flag strings plus the `isRegex` marker. -/
structure CompiledPattern where
  source : JSStr
  flags : JSStr
  isRegex : Bool
deriving DecidableEq, Repr

/-- Model of `parseSearchPattern` (src/index.ts lines 133-146): wrapper
syntax compiles body and flags verbatim as a regex; anything else is escaped
and compiled with flags `gi` as a case-insensitive literal. -/
def parseSearchPattern (pattern : JSStr) : CompiledPattern :=
  match wrapperMatch pattern with
  | some (body, flags) => { source := body, flags := flags, isRegex := true }
  | none => { source := escapeJS pattern, flags := jstr "gi", isRegex := false }

/-- Reads an escaped-literal regex source back into the character sequence it
denotes: a backslash makes the next character literal, and a bare
metacharacter means the source is not a pure literal (`none`). -/
def readEscaped : List Char → Option (List Char)
  | [] => some []
  | c :: rest =>
    if c = '\\' then
      match rest with
      | [] => none
      | d :: rest2 => (readEscaped rest2).map (fun l => d :: l)
    else if isMeta c then none
    else (readEscaped rest).map (fun l => c :: l)

/-- Positions at which `pat` occurs in `text` after normalising both with
`canon` (all candidate start offsets, ascending). -/
def occurrencesAt (canon : JSStr → JSStr) (pat text : JSStr) : List Nat :=
  (List.range (text.length + 1)).filter
    (fun i => decide (canon ((text.drop i).take pat.length) = canon pat) &&
      decide (i + pat.length ≤ text.length))

/-- Model of the external JS RegExp engine restricted to the escaped-literal
patterns built by `parseSearchPattern`'s literal branch: the escaped source
denotes an exact character sequence, and with the `i` flag matching compares
lowercased characters.  Each occurrence is reported as (start, length). -/
def runCompiledLiteral (cp : CompiledPattern) (text : JSStr) : Option (List (Nat × Nat)) :=
  match readEscaped cp.source with
  | none => none
  | some lit =>
    if cp.flags.contains 'i' then
      some ((occurrencesAt (fun l => l.map Char.toLower) lit text).map
        (fun i => (i, lit.length)))
    else
      some ((occurrencesAt id lit text).map (fun i => (i, lit.length)))

/-- One regex match as consumed by the search loop: `match.index` and the
length of `match[0]`. -/
structure MatchRec where
  index : Nat
  len : Nat
deriving DecidableEq, Repr

/-- Model of `String.prototype.includes` for a single character. -/
def jsIncludesChar (s : JSStr) (c : Char) : Bool := s.contains c

/-- Model of the global-flag fixup in `searchWithTimeout` (src/index.ts line
174): force-add `g` when absent. -/
def ensureGlobal (flags : JSStr) : JSStr :=
  if jsIncludesChar flags 'g' then flags else flags ++ ['g']

/-- Model of the `exec` collection loop of `searchWithTimeout` (src/index.ts
lines 171-181).  The stream of successive `globalRegex.exec(text)` results
is abstracted as `seq` (`none` models the terminating `null`).  The loop
pushes each match and breaks once `matches.length > 10000`; the fuel
argument is `10001 - k`, which the break condition keeps positive, so the
model is exact. -/
def collectLoop (seq : Nat → Option MatchRec) : Nat → Nat → List MatchRec
  | _, 0 => []
  | k, fuel + 1 =>
    match seq k with
    | none => []
    | some m => if 10000 < k + 1 then [m] else m :: collectLoop seq (k + 1) fuel

/-- Matches collected by `searchWithTimeout` for one page. -/
def collectMatches (seq : Nat → Option MatchRec) : List MatchRec :=
  collectLoop seq 0 10001

/-- Model of JavaScript `text.slice(a, b)` for `0 <= a` and `a <= b` clamped
inputs (the only way `extractContext` calls it). -/
def jsSlice (text : JSStr) (a b : Int) : JSStr :=
  (text.drop a.toNat).take (b.toNat - a.toNat)

/-- Return value of `extractContext`. -/
structure ContextResult where
  snippet : JSStr
  matchStartInSnippet : Int
  matchEndInSnippet : Int
deriving DecidableEq, Repr

/-- Model of `extractContext` (src/index.ts lines 148-162). -/
def extractContext (text : JSStr) (matchStart matchEnd contextChars : Int) : ContextResult :=
  { snippet := jsSlice text (max 0 (matchStart - contextChars))
      (min (text.length : Int) (matchEnd + contextChars))
    matchStartInSnippet := matchStart - max 0 (matchStart - contextChars)
    matchEndInSnippet := matchEnd - max 0 (matchStart - contextChars) }

/-- Stop reasons of `searchPdfText`. -/
inductive StopReason
  | max_results
  | max_pages
deriving DecidableEq, Repr

/-- One snippet of the search output: `{text, matchStart, matchEnd}`. -/
structure Snippet where
  text : JSStr
  matchStart : Int
  matchEnd : Int
deriving DecidableEq, Repr

/-- One per-page entry of the search output's `matches` array. -/
structure PageMatches where
  page : Int
  matchCount : Nat
  snippets : List Snippet
deriving DecidableEq, Repr

/-- One entry of the search output's `errors` array: either a per-page error
string (`Page N: ...`) or the aggregate `General error: ...` string; the
message text is carried verbatim, the page tag separately. -/
inductive SearchErr
  | pageErr (page : Int) (msg : JSStr)
  | generalErr (msg : JSStr)
deriving DecidableEq, Repr

/-- Return value of `searchPdfText`. -/
structure SearchOutcome where
  matchesArr : List PageMatches
  errors : List SearchErr
  pagesScanned : Nat
  completed : Bool
  stoppedReason : Option StopReason
deriving DecidableEq, Repr

/-- One page as consumed by the search loop: its 1-indexed page number, its
extracted text, and the outcome of its (asynchronous, timeout-raced)
`searchWithTimeout` call, supplied as an explicit input. -/
abbrev PageInput := Int × JSStr × Except JSStr (List MatchRec)

/-- Model of the JavaScript truthiness-guarded limit checks
`maxResults && total >= maxResults` and
`maxPagesScanned && pagesScanned >= maxPagesScanned`. -/
def jsTruthyGe (limit : Option Nat) (v : Nat) : Bool :=
  match limit with
  | none => false
  | some m => decide (m ≠ 0) && decide (m ≤ v)

/-- Snippet construction inside `searchPdfText`'s match mapping
(src/index.ts lines 368-378). -/
def mkSnippet (pageText : JSStr) (contextChars : Int) (m : MatchRec) : Snippet :=
  { text := (extractContext pageText (m.index : Int) ((m.index : Int) + (m.len : Int))
      contextChars).snippet
    matchStart := (extractContext pageText (m.index : Int)
      ((m.index : Int) + (m.len : Int)) contextChars).matchStartInSnippet
    matchEnd := (extractContext pageText (m.index : Int)
      ((m.index : Int) + (m.len : Int)) contextChars).matchEndInSnippet }

/-- Per-page loop of `searchPdfText` (src/index.ts lines 359-420), with the
accumulators (`matches`, `errors`, `totalMatches`, `pagesScanned`) passed
explicitly.  A failed page scan appends one tagged error and continues; a
successful scan appends a `PageMatches` entry when it found matches, then
checks the two stop conditions in source order. -/
def searchGo (contextChars : Int) (maxResults maxPagesScanned : Option Nat) :
    List PageInput → List PageMatches → List SearchErr → Nat → Nat → SearchOutcome
  | [], ms, errs, _tm, ps =>
    { matchesArr := ms, errors := errs, pagesScanned := ps, completed := true,
      stoppedReason := none }
  | (pageNum, pageText, res) :: rest, ms, errs, tm, ps =>
    match res with
    | .error msg =>
      searchGo contextChars maxResults maxPagesScanned rest ms
        (errs ++ [.pageErr pageNum msg]) tm (ps + 1)
    | .ok pm =>
      if jsTruthyGe maxResults (tm + pm.length) then
        { matchesArr := if 0 < pm.length then
              ms ++ [{ page := pageNum, matchCount := pm.length,
                       snippets := pm.map (mkSnippet pageText contextChars) }]
            else ms,
          errors := errs, pagesScanned := ps + 1, completed := false,
          stoppedReason := some .max_results }
      else if jsTruthyGe maxPagesScanned (ps + 1) then
        { matchesArr := if 0 < pm.length then
              ms ++ [{ page := pageNum, matchCount := pm.length,
                       snippets := pm.map (mkSnippet pageText contextChars) }]
            else ms,
          errors := errs, pagesScanned := ps + 1, completed := false,
          stoppedReason := some .max_pages }
      else
        searchGo contextChars maxResults maxPagesScanned rest
          (if 0 < pm.length then
              ms ++ [{ page := pageNum, matchCount := pm.length,
                       snippets := pm.map (mkSnippet pageText contextChars) }]
            else ms)
          errs (tm + pm.length) (ps + 1)

/-- Model of `searchPdfText` (src/index.ts lines 319-431): the upstream
text extraction either fails as a whole (caught as one aggregate error with
`completed = false`) or yields the page inputs consumed by the loop. -/
def searchPdfText (extraction : Except JSStr (List PageInput)) (contextChars : Int)
    (maxResults maxPagesScanned : Option Nat) : SearchOutcome :=
  match extraction with
  | .error msg =>
    { matchesArr := [], errors := [.generalErr msg], pagesScanned := 0, completed := false,
      stoppedReason := none }
  | .ok pages => searchGo contextChars maxResults maxPagesScanned pages [] [] 0 0

/-- Sum of the per-page match counts of the output `matches` array; equal to
the loop's running `totalMatches` accumulator. -/
def sumCounts (ms : List PageMatches) : Nat :=
  (ms.map PageMatches.matchCount).sum

/-- The `matches` entry a page contributes when no stop condition fires
before it: present exactly when its scan succeeded with at least one match. -/
def entryOf (contextChars : Int) (pi : PageInput) : Option PageMatches :=
  match pi with
  | (pageNum, pageText, .ok pm) =>
    if 0 < pm.length then
      some { page := pageNum, matchCount := pm.length,
             snippets := pm.map (mkSnippet pageText contextChars) }
    else none
  | (_, _, .error _) => none

/-- The `errors` entry a page contributes: present exactly when its scan
failed, tagged with its page number. -/
def errOf (pi : PageInput) : Option SearchErr :=
  match pi with
  | (pageNum, _, .error msg) => some (.pageErr pageNum msg)
  | (_, _, .ok _) => none

/-- C4: `extractContext` returns the clamped window
`[max(0, matchStart - contextChars), min(len, matchEnd + contextChars))`
with the match offsets rebased to the window start; the rebased offsets
select exactly the original match text, and the spec's concrete instance
evaluates per the formula. -/
theorem C4_extract_context (text : JSStr) (ms me cc : Int)
    (h0 : 0 ≤ ms) (h1 : ms ≤ me) (h2 : me ≤ (text.length : Int)) (h3 : 0 ≤ cc) :
    (extractContext text ms me cc).snippet =
      jsSlice text (max 0 (ms - cc)) (min (text.length : Int) (me + cc)) ∧
    (extractContext text ms me cc).matchStartInSnippet = ms - max 0 (ms - cc) ∧
    (extractContext text ms me cc).matchEndInSnippet = me - max 0 (ms - cc) ∧
    jsSlice (extractContext text ms me cc).snippet
      (extractContext text ms me cc).matchStartInSnippet
      (extractContext text ms me cc).matchEndInSnippet = jsSlice text ms me ∧
    extractContext (jstr "0123456789ABCDE") 7 9 5 =
      { snippet := jstr "23456789ABCD", matchStartInSnippet := 5, matchEndInSnippet := 7 } := by
  refine ⟨rfl, rfl, rfl, ?_, by decide⟩
  show jsSlice (jsSlice text (max 0 (ms - cc)) (min (text.length : Int) (me + cc)))
      (ms - max 0 (ms - cc)) (me - max 0 (ms - cc)) = jsSlice text ms me
  set a := max 0 (ms - cc) with hadef
  set b := min (text.length : Int) (me + cc) with hbdef
  have hfa : 0 ≤ a := by omega
  have hfam : a ≤ ms := by omega
  have hfme : me ≤ b := by omega
  have hfb : b ≤ (text.length : Int) := by omega
  unfold jsSlice
  rw [List.drop_take, List.drop_drop, List.take_take]
  have e1 : a.toNat + (ms - a).toNat = ms.toNat := by omega
  have e2 : min ((me - a).toNat - (ms - a).toNat) (b.toNat - a.toNat - (ms - a).toNat) =
      me.toNat - ms.toNat := by omega
  rw [e1, e2]

theorem C4_extract_context_witness :
    (extractContext (jstr "0123456789ABCDE") 7 9 5).snippet =
      jsSlice (jstr "0123456789ABCDE") (max 0 (7 - 5)) (min 15 (9 + 5)) ∧
    extractContext (jstr "0123456789ABCDE") 7 9 5 =
      { snippet := jstr "23456789ABCD", matchStartInSnippet := 5, matchEndInSnippet := 7 } := by
  have h := C4_extract_context (jstr "0123456789ABCDE") 7 9 5 (by decide) (by decide)
    (by decide) (by decide)
  exact ⟨h.1, h.2.2.2.2⟩

theorem readEscaped_escapeJS (s : JSStr) : readEscaped (escapeJS s) = some s := by
  induction s with
  | nil => rfl
  | cons c rest ih =>
    by_cases hm : isMeta c
    · have hstep : escapeJS (c :: rest) = '\\' :: c :: escapeJS rest := by
        simp [escapeJS, hm]
      rw [hstep]
      unfold readEscaped
      rw [if_pos rfl]
      simp [ih]
    · have hc : ¬ c = '\\' := by
        intro hce
        rw [hce] at hm
        exact hm (by decide)
      have hstep : escapeJS (c :: rest) = c :: escapeJS rest := by
        simp [escapeJS, hm]
      rw [hstep]
      unfold readEscaped
      rw [if_neg hc, if_neg (by simp [hm])]
      simp [ih]

theorem parseSearchPattern_of_none {p : JSStr} (h : wrapperMatch p = none) :
    parseSearchPattern p = { source := escapeJS p, flags := jstr "gi", isRegex := false } := by
  unfold parseSearchPattern
  rw [h]

theorem parseSearchPattern_of_some {p b f : JSStr} (h : wrapperMatch p = some (b, f)) :
    parseSearchPattern p = { source := b, flags := f, isRegex := true } := by
  unfold parseSearchPattern
  rw [h]

/-- C5: a pattern not in `/body/flags` wrapper syntax is compiled as an
escaped, case-insensitive literal: the escaped source reads back as exactly
the original text (every metacharacter is neutralised), the flag string is
`gi`, and the modelled engine finds only the literal occurrence of `"a.b"`
in `"a.b and axb"`, for `"A.B"` as well (case-insensitive). -/
theorem C5_literal_compilation (p : JSStr) (h : wrapperMatch p = none) :
    parseSearchPattern p = { source := escapeJS p, flags := jstr "gi", isRegex := false } ∧
    readEscaped (parseSearchPattern p).source = some p ∧
    (parseSearchPattern p).flags.contains 'i' = true ∧
    runCompiledLiteral (parseSearchPattern (jstr "a.b")) (jstr "a.b and axb") =
      some [(0, 3)] ∧
    runCompiledLiteral (parseSearchPattern (jstr "A.B")) (jstr "a.b and axb") =
      some [(0, 3)] := by
  have hps := parseSearchPattern_of_none h
  refine ⟨hps, ?_, ?_, by decide, by decide⟩
  · rw [hps]
    exact readEscaped_escapeJS p
  · rw [hps]
    rfl

theorem C5_literal_compilation_witness :
    parseSearchPattern (jstr "a.b") =
      { source := escapeJS (jstr "a.b"), flags := jstr "gi", isRegex := false } ∧
    runCompiledLiteral (parseSearchPattern (jstr "a.b")) (jstr "a.b and axb") =
      some [(0, 3)] :=
  ⟨(C5_literal_compilation (jstr "a.b") (by decide)).1,
   (C5_literal_compilation (jstr "a.b") (by decide)).2.2.2.1⟩

theorem splitAtLastSlash_none_not_mem : ∀ {l : List Char},
    splitAtLastSlash l = none → '/' ∉ l := by
  intro l
  induction l with
  | nil =>
    intro _ hmem
    cases hmem
  | cons c cs ih =>
    intro h hmem
    unfold splitAtLastSlash at h
    cases hs : splitAtLastSlash cs with
    | some bf =>
      rw [hs] at h
      obtain ⟨b0, f0⟩ := bf
      unfold slashStep at h
      cases h
    | none =>
      rw [hs] at h
      unfold slashStep at h
      by_cases hc : c = '/'
      · rw [if_pos hc] at h
        cases h
      · rcases List.mem_cons.mp hmem with hce | hmem2
        · exact hc hce.symm
        · exact ih hs hmem2

theorem splitAtLastSlash_of_not_mem : ∀ {l : List Char},
    '/' ∉ l → splitAtLastSlash l = none := by
  intro l
  induction l with
  | nil => intro _; rfl
  | cons c cs ih =>
    intro h
    have hc : ¬ c = '/' := by
      intro hce
      exact h (by rw [hce]; exact List.mem_cons_self _ _)
    have hcs : '/' ∉ cs := fun hm => h (List.mem_cons_of_mem c hm)
    unfold splitAtLastSlash
    rw [ih hcs]
    unfold slashStep
    rw [if_neg hc]

theorem splitAtLastSlash_sound : ∀ {l b f : List Char},
    splitAtLastSlash l = some (b, f) → l = b ++ '/' :: f ∧ '/' ∉ f := by
  intro l
  induction l with
  | nil => intro b f h; cases h
  | cons c cs ih =>
    intro b f h
    unfold splitAtLastSlash at h
    cases hs : splitAtLastSlash cs with
    | some bf =>
      rw [hs] at h
      obtain ⟨b0, f0⟩ := bf
      unfold slashStep at h
      cases h
      obtain ⟨hcs, hf⟩ := ih hs
      exact ⟨by rw [hcs]; rfl, hf⟩
    | none =>
      rw [hs] at h
      unfold slashStep at h
      by_cases hc : c = '/'
      · rw [if_pos hc] at h
        cases h
        exact ⟨by rw [hc]; rfl, splitAtLastSlash_none_not_mem hs⟩
      · rw [if_neg hc] at h
        cases h

theorem splitAtLastSlash_complete : ∀ (b f : List Char), '/' ∉ f →
    splitAtLastSlash (b ++ '/' :: f) = some (b, f) := by
  intro b
  induction b with
  | nil =>
    intro f hf
    show splitAtLastSlash ('/' :: f) = some ([], f)
    unfold splitAtLastSlash
    rw [splitAtLastSlash_of_not_mem hf]
    unfold slashStep
    rw [if_pos rfl]
  | cons c b0 ih =>
    intro f hf
    show splitAtLastSlash (c :: (b0 ++ '/' :: f)) = some (c :: b0, f)
    unfold splitAtLastSlash
    rw [ih f hf]
    rfl

theorem wrapperMatch_cons (c : Char) (rest : JSStr) :
    wrapperMatch (c :: rest) =
      if c = '/' then wrapperCheck (splitAtLastSlash rest) else none := rfl

theorem wrapperMatch_some_shape {p b f : JSStr} (h : wrapperMatch p = some (b, f)) :
    p = '/' :: (b ++ '/' :: f) ∧ b ≠ [] ∧ f.all isFlagChar = true := by
  cases p with
  | nil => cases h
  | cons c rest =>
    rw [wrapperMatch_cons] at h
    by_cases hc : c = '/'
    · rw [if_pos hc] at h
      cases hs : splitAtLastSlash rest with
      | none =>
        rw [hs] at h
        simp only [wrapperCheck] at h
        cases h
      | some bf =>
        rw [hs] at h
        obtain ⟨b0, f0⟩ := bf
        simp only [wrapperCheck] at h
        by_cases hbe : List.isEmpty b0 = true
        · rw [if_pos hbe] at h
          cases h
        · rw [if_neg hbe] at h
          by_cases hfl : f0.all isFlagChar = true
          · rw [if_pos hfl] at h
            cases h
            obtain ⟨hrest, _⟩ := splitAtLastSlash_sound hs
            refine ⟨by rw [hc, hrest], ?_, hfl⟩
            intro hb
            rw [hb] at hbe
            exact hbe rfl
          · rw [if_neg hfl] at h
            cases h
    · rw [if_neg hc] at h
      cases h

/-- C10: the `/body/flags` wrapper is dispatched to regex compilation only
when the body is non-empty and every trailing flag character is one of
`gimuy`; any other flag characters (such as `s`) make the whole string,
slashes and flags included, an escaped case-insensitive literal. -/
theorem C10_wrapper_flags :
    (∀ p : JSStr, (parseSearchPattern p).isRegex = true →
      ∃ b f : JSStr, p = '/' :: (b ++ '/' :: f) ∧ b ≠ [] ∧ f.all isFlagChar = true ∧
        parseSearchPattern p = { source := b, flags := f, isRegex := true }) ∧
    (∀ b f : JSStr, '/' ∉ f → f.all isFlagChar = false →
      parseSearchPattern ('/' :: (b ++ '/' :: f)) =
        { source := escapeJS ('/' :: (b ++ '/' :: f)), flags := jstr "gi",
          isRegex := false }) ∧
    parseSearchPattern (jstr "/a/s") =
      { source := jstr "/a/s", flags := jstr "gi", isRegex := false } ∧
    parseSearchPattern (jstr "/a/g") =
      { source := jstr "a", flags := jstr "g", isRegex := true } := by
  refine ⟨?_, ?_, by decide, by decide⟩
  · intro p hreg
    cases hw : wrapperMatch p with
    | none =>
      rw [parseSearchPattern_of_none hw] at hreg
      simp at hreg
    | some bf =>
      obtain ⟨b, f⟩ := bf
      obtain ⟨hp, hb, hf⟩ := wrapperMatch_some_shape hw
      exact ⟨b, f, hp, hb, hf, parseSearchPattern_of_some hw⟩
  · intro b f hf hfl
    have hsplit := splitAtLastSlash_complete b f hf
    have hw : wrapperMatch ('/' :: (b ++ '/' :: f)) = none := by
      rw [wrapperMatch_cons, if_pos rfl, hsplit]
      simp only [wrapperCheck]
      rw [hfl]
      by_cases hb : b.isEmpty = true
      · rw [if_pos hb]
      · rw [if_neg hb, if_neg (by decide)]
    exact parseSearchPattern_of_none hw

theorem C10_wrapper_flags_witness :
    parseSearchPattern ('/' :: (jstr "a" ++ '/' :: jstr "s")) =
      { source := escapeJS ('/' :: (jstr "a" ++ '/' :: jstr "s")), flags := jstr "gi",
        isRegex := false } :=
  C10_wrapper_flags.2.1 (jstr "a") (jstr "s") (by decide) (by decide)

theorem collectLoop_length_le (seq : Nat → Option MatchRec) :
    ∀ (fuel k : Nat), (collectLoop seq k fuel).length ≤ fuel := by
  intro fuel
  induction fuel with
  | zero =>
    intro k
    exact Nat.le_refl 0
  | succ n ih =>
    intro k
    unfold collectLoop
    cases hs : seq k with
    | none => simp
    | some m =>
      simp only [hs]
      by_cases hbig : 10000 < k + 1
      · rw [if_pos hbig]
        simp
      · rw [if_neg hbig]
        simpa using Nat.succ_le_succ (ih (k + 1))

theorem collectLoop_const (m : MatchRec) :
    ∀ (fuel k : Nat), k + fuel = 10001 →
      collectLoop (fun _ => some m) k fuel = List.replicate fuel m := by
  intro fuel
  induction fuel with
  | zero =>
    intro k hk
    rfl
  | succ n ih =>
    intro k hk
    unfold collectLoop
    simp only
    by_cases hbig : 10000 < k + 1
    · have hn : n = 0 := by omega
      subst hn
      rw [if_pos hbig]
      rfl
    · rw [if_neg hbig, ih (k + 1) (by omega)]
      rfl

theorem collectLoop_exhaust (seq : Nat → Option MatchRec) (n : Nat) (f : Nat → MatchRec)
    (hn : n ≤ 10000) (hsome : ∀ k, k < n → seq k = some (f k)) (hnone : seq n = none) :
    ∀ (fuel k : Nat), k + fuel = 10001 → k ≤ n →
      collectLoop seq k fuel = (List.range' k (n - k)).map f := by
  intro fuel
  induction fuel with
  | zero =>
    intro k h1 h2
    omega
  | succ m ih =>
    intro k h1 h2
    unfold collectLoop
    by_cases hkn : k = n
    · subst hkn
      simp only [hnone]
      rw [Nat.sub_self]
      rfl
    · have hklt : k < n := by omega
      simp only [hsome k hklt]
      rw [if_neg (by omega), ih (k + 1) (by omega) (by omega)]
      have hsub : n - k = (n - k - 1) + 1 := by omega
      rw [hsub, List.range'_succ]
      rfl

/-- C7 counterexample: with a never-null match stream (as a zero-width
pattern produces, since `exec` is re-run at the same `lastIndex`), the
collection loop pushes the 10001st match before the `> 10000` check fires,
so a page can return 10001 matches, falsifying the claimed 10,000 bound. -/
theorem C7_match_cap_counterexample :
    (collectMatches (fun _ => some { index := 0, len := 0 })).length = 10001 ∧
    ¬((collectMatches (fun _ => some { index := 0, len := 0 })).length ≤ 10000) := by
  have h := collectLoop_const { index := 0, len := 0 } 10001 0 rfl
  unfold collectMatches
  rw [h, List.length_replicate]
  exact ⟨rfl, by omega⟩

/-- C7 (amended): the per-page enumeration always terminates; matches are
collected until the text is exhausted or the post-push check
`matches.length > 10000` breaks the loop, so at most 10001 — not 10000 —
matches are returned per page; a stream exhausted after `n <= 10000` matches
yields exactly those `n`; and the global flag is force-added when absent. -/
theorem C7_match_cap_amended (seq : Nat → Option MatchRec) (n : Nat) (f : Nat → MatchRec)
    (hn : n ≤ 10000) (hsome : ∀ k, k < n → seq k = some (f k)) (hnone : seq n = none) :
    (∀ s : Nat → Option MatchRec, (collectMatches s).length ≤ 10001) ∧
    (∀ fl : JSStr, jsIncludesChar (ensureGlobal fl) 'g' = true) ∧
    collectMatches seq = (List.range n).map f := by
  refine ⟨fun s => collectLoop_length_le s 10001 0, ?_, ?_⟩
  · intro fl
    unfold ensureGlobal
    by_cases hg : jsIncludesChar fl 'g'
    · rw [if_pos hg]
      exact hg
    · rw [if_neg hg]
      unfold jsIncludesChar
      simp
  · have h := collectLoop_exhaust seq n f hn hsome hnone 10001 0 rfl (Nat.zero_le n)
    unfold collectMatches
    rw [h, Nat.sub_zero, List.range_eq_range']

theorem C7_match_cap_amended_witness :
    collectMatches (fun k => if k < 2 then some { index := k, len := 1 } else none) =
      [{ index := 0, len := 1 }, { index := 1, len := 1 }] := by
  have h := (C7_match_cap_amended
      (fun k => if k < 2 then some { index := k, len := 1 } else none) 2
      (fun k => { index := k, len := 1 }) (by decide)
      (fun k hk => by simp [hk]) rfl).2.2
  rw [h]
  rfl

theorem sumCounts_append_entry (ms : List PageMatches) (e : PageMatches) :
    sumCounts (ms ++ [e]) = sumCounts ms + e.matchCount := by
  simp [sumCounts]

theorem sumCounts_step (ms : List PageMatches) (pageNum : Int) (pageText : JSStr)
    (cc : Int) (pm : List MatchRec) :
    sumCounts (if 0 < pm.length then
        ms ++ [{ page := pageNum, matchCount := pm.length,
                 snippets := pm.map (mkSnippet pageText cc) }]
      else ms) = sumCounts ms + pm.length := by
  by_cases h : 0 < pm.length
  · rw [if_pos h, sumCounts_append_entry]
  · rw [if_neg h]
    have hz : pm.length = 0 := by omega
    rw [hz]
    rfl

theorem searchGo_main (cc : Int) (mr mp : Option Nat) :
    ∀ (pages : List PageInput) (ms : List PageMatches) (errs : List SearchErr) (tm ps : Nat),
      ((searchGo cc mr mp pages ms errs tm ps).completed = true ↔
        (searchGo cc mr mp pages ms errs tm ps).stoppedReason = none) ∧
      ((searchGo cc mr mp pages ms errs tm ps).completed = true →
        (searchGo cc mr mp pages ms errs tm ps).pagesScanned = ps + pages.length) ∧
      (tm = sumCounts ms →
        ((searchGo cc mr mp pages ms errs tm ps).stoppedReason = some .max_results →
          (searchGo cc mr mp pages ms errs tm ps).completed = false ∧
          jsTruthyGe mr
            (sumCounts (searchGo cc mr mp pages ms errs tm ps).matchesArr) = true) ∧
        ((searchGo cc mr mp pages ms errs tm ps).stoppedReason = some .max_pages →
          (searchGo cc mr mp pages ms errs tm ps).completed = false ∧
          jsTruthyGe mp (searchGo cc mr mp pages ms errs tm ps).pagesScanned = true ∧
          jsTruthyGe mr
            (sumCounts (searchGo cc mr mp pages ms errs tm ps).matchesArr) = false)) := by
  intro pages
  induction pages with
  | nil =>
    intro ms errs tm ps
    refine ⟨by simp [searchGo], ?_, ?_⟩
    · intro _
      simp [searchGo]
    · intro _
      constructor
      · intro hr
        simp [searchGo] at hr
      · intro hr
        simp [searchGo] at hr
  | cons pg rest ih =>
    intro ms errs tm ps
    obtain ⟨pageNum, pageText, res⟩ := pg
    cases res with
    | error msg =>
      simp only [searchGo]
      refine ⟨(ih ms (errs ++ [SearchErr.pageErr pageNum msg]) tm (ps + 1)).1, ?_, ?_⟩
      · intro hcomp
        have hl := (ih ms (errs ++ [SearchErr.pageErr pageNum msg]) tm (ps + 1)).2.1 hcomp
        rw [hl]
        simp only [List.length_cons]
        omega
      · intro hinv
        exact (ih ms (errs ++ [SearchErr.pageErr pageNum msg]) tm (ps + 1)).2.2 hinv
    | ok pm =>
      simp only [searchGo]
      by_cases h1 : jsTruthyGe mr (tm + pm.length) = true
      · rw [if_pos h1]
        refine ⟨by simp, by simp, ?_⟩
        intro hinv
        constructor
        · intro _
          refine ⟨rfl, ?_⟩
          show jsTruthyGe mr (sumCounts (if 0 < pm.length then
              ms ++ [{ page := pageNum, matchCount := pm.length,
                       snippets := pm.map (mkSnippet pageText cc) }] else ms)) = true
          rw [sumCounts_step, ← hinv]
          exact h1
        · intro hr
          simp at hr
      · rw [if_neg h1]
        by_cases h2 : jsTruthyGe mp (ps + 1) = true
        · rw [if_pos h2]
          refine ⟨by simp, by simp, ?_⟩
          intro hinv
          constructor
          · intro hr
            simp at hr
          · intro _
            refine ⟨rfl, h2, ?_⟩
            show jsTruthyGe mr (sumCounts (if 0 < pm.length then
                ms ++ [{ page := pageNum, matchCount := pm.length,
                         snippets := pm.map (mkSnippet pageText cc) }] else ms)) = false
            rw [sumCounts_step, ← hinv]
            simpa using h1
        · rw [if_neg h2]
          refine ⟨(ih _ errs (tm + pm.length) (ps + 1)).1, ?_, ?_⟩
          · intro hcomp
            rw [(ih _ errs (tm + pm.length) (ps + 1)).2.1 hcomp]
            simp
            omega
          · intro hinv
            refine (ih _ errs (tm + pm.length) (ps + 1)).2.2 ?_
            rw [sumCounts_step, ← hinv]

theorem searchGo_no_limits (cc : Int) :
    ∀ (pages : List PageInput) (ms : List PageMatches) (errs : List SearchErr) (tm ps : Nat),
      searchGo cc none none pages ms errs tm ps =
        { matchesArr := ms ++ pages.filterMap (entryOf cc),
          errors := errs ++ pages.filterMap errOf,
          pagesScanned := ps + pages.length,
          completed := true, stoppedReason := none } := by
  intro pages
  induction pages with
  | nil =>
    intro ms errs tm ps
    simp [searchGo]
  | cons pg rest ih =>
    intro ms errs tm ps
    obtain ⟨pageNum, pageText, res⟩ := pg
    cases res with
    | error msg =>
      simp only [searchGo]
      rw [ih]
      simp [entryOf, errOf]
      omega
    | ok pm =>
      simp only [searchGo]
      rw [if_neg (by simp [jsTruthyGe]), if_neg (by simp [jsTruthyGe]), ih]
      by_cases hpm : 0 < pm.length
      · rw [if_pos hpm]
        simp only [List.filterMap_cons, entryOf, errOf]
        rw [if_pos hpm]
        simp
        omega
      · rw [if_neg hpm]
        simp only [List.filterMap_cons, entryOf, errOf]
        rw [if_neg hpm]
        simp
        omega

/-- C2 test vector: two pages with 3 and 1 matches respectively. -/
def c2PagesA : List PageInput :=
  [(1, jstr "abc", Except.ok [⟨0, 1⟩, ⟨1, 1⟩, ⟨2, 1⟩]),
   (2, jstr "abc", Except.ok [⟨0, 1⟩])]

/-- C2 expected one-character snippet with rebased offsets. -/
def c2Snip (c : Char) : Snippet :=
  { text := [c], matchStart := 0, matchEnd := 1 }

/-- C2 expected outcome: stop after page 1 with reason max_results, the
current page's 3 matches included in full, page 2 never scanned. -/
def c2OutA : SearchOutcome :=
  { matchesArr := [{ page := 1, matchCount := 3,
                     snippets := [c2Snip 'a', c2Snip 'b', c2Snip 'c'] }],
    errors := [],
    pagesScanned := 1,
    completed := false,
    stoppedReason := some StopReason.max_results }

/-- C2: stop conditions are checked only after a page's scan completes, in
the order maxResults then maxPagesScanned; a max_results stop returns
immediately with completed = false and the cumulative match count at or
above the limit (current page's matches included in full); a max_pages stop
implies the maxResults condition did not hold; exhausting all pages yields
completed = true with no stoppedReason.  The two concrete vectors exhibit
the immediate stop with the current page complete, and the priority of
max_results over a simultaneously satisfied max_pages. -/
theorem C2_stop_conditions (pages : List PageInput) (cc : Int) (mr mp : Option Nat) :
    ((searchPdfText (Except.ok pages) cc mr mp).completed = true ↔
      (searchPdfText (Except.ok pages) cc mr mp).stoppedReason = none) ∧
    ((searchPdfText (Except.ok pages) cc mr mp).completed = true →
      (searchPdfText (Except.ok pages) cc mr mp).pagesScanned = pages.length) ∧
    ((searchPdfText (Except.ok pages) cc mr mp).stoppedReason = some StopReason.max_results →
      (searchPdfText (Except.ok pages) cc mr mp).completed = false ∧
      jsTruthyGe mr
        (sumCounts (searchPdfText (Except.ok pages) cc mr mp).matchesArr) = true) ∧
    ((searchPdfText (Except.ok pages) cc mr mp).stoppedReason = some StopReason.max_pages →
      (searchPdfText (Except.ok pages) cc mr mp).completed = false ∧
      jsTruthyGe mp (searchPdfText (Except.ok pages) cc mr mp).pagesScanned = true ∧
      jsTruthyGe mr
        (sumCounts (searchPdfText (Except.ok pages) cc mr mp).matchesArr) = false) ∧
    searchPdfText (Except.ok c2PagesA) 0 (some 1) none = c2OutA ∧
    searchPdfText (Except.ok c2PagesA) 0 (some 3) (some 1) = c2OutA := by
  have hred : searchPdfText (Except.ok pages) cc mr mp =
      searchGo cc mr mp pages [] [] 0 0 := rfl
  have hmain := searchGo_main cc mr mp pages [] [] 0 0
  rw [hred]
  refine ⟨hmain.1, ?_, (hmain.2.2 rfl).1, (hmain.2.2 rfl).2, by decide, by decide⟩
  intro hcomp
  rw [hmain.2.1 hcomp]
  simp

theorem C2_stop_conditions_witness :
    (searchPdfText (Except.ok c2PagesA) 0 (some 1) none).completed = false ∧
    jsTruthyGe (some 1)
      (sumCounts (searchPdfText (Except.ok c2PagesA) 0 (some 1) none).matchesArr) = true :=
  (C2_stop_conditions c2PagesA 0 (some 1) none).2.2.1 (by decide)

/-- C6: a failure while scanning a single page is recovered, not fatal: it
contributes exactly one page-tagged entry to the errors list, contributes no
matches entry for that page, and every other page of the range is still
scanned, the overall multi-page search completing. -/
theorem C6_page_failure_recovered (pre post : List PageInput) (p : Int) (t msg : JSStr)
    (cc : Int) :
    (searchPdfText (Except.ok (pre ++ (p, t, Except.error msg) :: post)) cc none none).errors =
      pre.filterMap errOf ++ SearchErr.pageErr p msg :: post.filterMap errOf ∧
    (searchPdfText (Except.ok (pre ++ (p, t, Except.error msg) :: post)) cc none
        none).matchesArr = pre.filterMap (entryOf cc) ++ post.filterMap (entryOf cc) ∧
    (searchPdfText (Except.ok (pre ++ (p, t, Except.error msg) :: post)) cc none
        none).pagesScanned = pre.length + 1 + post.length ∧
    (searchPdfText (Except.ok (pre ++ (p, t, Except.error msg) :: post)) cc none
        none).completed = true := by
  have hred : searchPdfText (Except.ok (pre ++ (p, t, Except.error msg) :: post)) cc none
      none = searchGo cc none none (pre ++ (p, t, Except.error msg) :: post) [] [] 0 0 := rfl
  rw [hred, searchGo_no_limits]
  refine ⟨?_, ?_, ?_, rfl⟩
  · simp [List.filterMap_append, List.filterMap_cons, errOf]
  · simp [List.filterMap_append, List.filterMap_cons, entryOf]
  · simp
    omega

end PdfAgent
